import Mathlib

/-!
Shallow embedding of the cache-simulation engine of the repository
MuhammadBahawal/University (directory `Semester 4th/oprating-system/OS project`).

The repository contains two implementations of the engine:

* `cache_simulator.py` — a fixed-policy batch engine (`CacheSimulator.run`),
  embedded below in namespace `CacheSim`;
* `os.py` — an engine whose replacement policy is chosen per eviction through a
  callback, and whose Random policy draws from a random generator, embedded
  below in namespace `OsSim` (the callback is modelled as a stream of policies,
  the generator as a stream of draws).

Python operations that can raise are embedded with `Option`:
`%` by zero (ZeroDivisionError), `list.pop(0)` on an empty list (IndexError),
`list.index` on a missing element (ValueError), `random.randint(0, -1)`
(ValueError), out-of-range list indexing (IndexError).
-/

set_option autoImplicit false

/-- Python `a % b` on non-negative ints: raises ZeroDivisionError when `b = 0`. -/
def pymod (a b : Nat) : Option Nat :=
  if b = 0 then none else some (a % b)

namespace CacheSim

/-- Mapping strings of `cache_simulator.py`:
"Direct", "Fully-Associative", "Set-Associative". -/
inductive Mapping where
  | direct
  | fullyAssoc
  | setAssoc
deriving DecidableEq, Repr

/-- Replacement-policy strings handled by `cache_simulator.py`: "LRU", "FIFO". -/
inductive Policy where
  | lru
  | fifo
deriving DecidableEq, Repr

/-- The `config` dict of `cache_simulator.py` (`block_size` is carried but never
read by the engine, as in the source). -/
structure Config where
  cache_size : Nat
  block_size : Nat
  mapping : Mapping
  replacement_policy : Policy
deriving DecidableEq, Repr

/-- `get_input_data` of `cache_simulator.py`: the hard-coded configuration. -/
def get_input_data_config : Config :=
  { cache_size := 4, block_size := 1,
    mapping := Mapping.direct, replacement_policy := Policy.lru }

/-- `get_input_data` of `cache_simulator.py`: the hard-coded access sequence. -/
def get_input_data_accesses : List Nat :=
  [1, 2, 3, 2, 4, 1, 5, 6, 2, 1, 7, 8]

/-- `CacheSet` of `cache_simulator.py`.  A `CacheBlock` holds only its tag, so a
block is represented by its tag. -/
structure CacheSet where
  blocks : List Nat
  associativity : Nat
deriving DecidableEq, Repr

/-- `CacheSet.is_full`: `len(self.blocks) >= self.associativity`. -/
def CacheSet.is_full (s : CacheSet) : Bool :=
  s.blocks.length ≥ s.associativity

/-- `CacheSet.find_block`: first block whose tag equals `tag`, else `None`. -/
def CacheSet.find_block (s : CacheSet) (tag : Nat) : Option Nat :=
  s.blocks.find? (fun b => b = tag)

/-- `CacheSet.remove_block`: `self.blocks.pop(0)`; popping an empty list raises
IndexError, hence `none`.  Returns the popped block and the updated set. -/
def CacheSet.remove_block (s : CacheSet) : Option (Nat × CacheSet) :=
  match s.blocks with
  | [] => none
  | b :: rest => some (b, { s with blocks := rest })

/-- `CacheSet.add_block`: `self.blocks.append(block)`. -/
def CacheSet.add_block (s : CacheSet) (tag : Nat) : CacheSet :=
  { s with blocks := s.blocks ++ [tag] }

/-- `apply_lru_policy`: pop the first block with this tag and append it at the
most-recent end; no match leaves the set unchanged. -/
def apply_lru_policy (s : CacheSet) (tag : Nat) : CacheSet :=
  if s.blocks.contains tag then
    { s with blocks := s.blocks.erase tag ++ [tag] }
  else s

/-- The `Cache` class of `cache_simulator.py`. -/
structure Cache where
  mapping : Mapping
  replacement_policy : Policy
  cache_size : Nat
  sets : List CacheSet
deriving DecidableEq, Repr

/-- `Cache.__init__`: Direct gets `cache_size` sets of associativity 1,
Fully-Associative one set of associativity `cache_size`, Set-Associative
`num_sets = 2` sets of associativity `cache_size // 2`. -/
def Cache.init (config : Config) : Cache :=
  { mapping := config.mapping
    replacement_policy := config.replacement_policy
    cache_size := config.cache_size
    sets :=
      match config.mapping with
      | Mapping.direct => List.replicate config.cache_size ⟨[], 1⟩
      | Mapping.fullyAssoc => [⟨[], config.cache_size⟩]
      | Mapping.setAssoc => List.replicate 2 ⟨[], config.cache_size / 2⟩ }

/-- `Cache.get_set_index`; Python `%` raises on a zero modulus. -/
def Cache.get_set_index (c : Cache) (address : Nat) : Option Nat :=
  match c.mapping with
  | Mapping.direct => pymod address c.cache_size
  | Mapping.setAssoc => pymod address c.sets.length
  | Mapping.fullyAssoc => some 0

/-- State of a `CacheSimulator` object mid-run.  `access_log` entries are
`(address, isHit)` with `true` for "HIT".  The fields `ins_log` and `ev_log`
are history (ghost) variables, not present in the Python object: they record
`(set_index, tag)` for every insertion into and eviction from a set, in order,
so that insertion/eviction order can be stated. -/
structure SimState where
  cache : Cache
  hits : Nat
  misses : Nat
  access_log : List (Nat × Bool)
  ins_log : List (Nat × Nat)
  ev_log : List (Nat × Nat)
deriving DecidableEq, Repr

/-- `CacheSimulator.__init__`. -/
def SimState.init (config : Config) : SimState :=
  { cache := Cache.init config, hits := 0, misses := 0,
    access_log := [], ins_log := [], ev_log := [] }

/-- One iteration of the loop body of `CacheSimulator.run` for address `addr`.
On a HIT with policy LRU the matched block is moved to the most-recent end; on
a MISS into a full set both FIFO and LRU branches call `remove_block`
(pop of the front), then the new block is appended. -/
def SimState.step (st : SimState) (addr : Nat) : Option SimState := do
  let set_index ← st.cache.get_set_index addr
  let cache_set ← st.cache.sets[set_index]?
  match cache_set.find_block addr with
  | some _ =>
      let cache_set :=
        if st.cache.replacement_policy = Policy.lru then
          apply_lru_policy cache_set addr
        else cache_set
      some { st with
        cache := { st.cache with sets := st.cache.sets.set set_index cache_set },
        hits := st.hits + 1,
        access_log := st.access_log ++ [(addr, true)] }
  | none =>
      let evicted ← if cache_set.is_full then
          (cache_set.remove_block).map (fun p => (some p.1, p.2))
        else some ((none : Option Nat), cache_set)
      let cache_set := evicted.2.add_block addr
      some { st with
        cache := { st.cache with sets := st.cache.sets.set set_index cache_set },
        misses := st.misses + 1,
        access_log := st.access_log ++ [(addr, false)],
        ins_log := st.ins_log ++ [(set_index, addr)],
        ev_log := st.ev_log ++ (match evicted.1 with
          | some v => [(set_index, v)]
          | none => []) }

/-- The loop of `CacheSimulator.run`, returning the final simulator state. -/
def runState (config : Config) (memory_accesses : List Nat) : Option SimState :=
  memory_accesses.foldlM SimState.step (SimState.init config)

/-- The dict returned by `CacheSimulator.run`. -/
structure RunResult where
  hits : Nat
  misses : Nat
  total : Nat
  log : List (Nat × Bool)
deriving DecidableEq, Repr

/-- `CacheSimulator.run`: run the whole access list and package the result. -/
def run (config : Config) (memory_accesses : List Nat) : Option RunResult :=
  (runState config memory_accesses).map (fun st =>
    { hits := st.hits, misses := st.misses,
      total := memory_accesses.length, log := st.access_log })

end CacheSim

namespace OsSim

/-- `MappingType` of `os.py`. -/
inductive MappingType where
  | DIRECT
  | FULLY_ASSOCIATIVE
  | SET_ASSOCIATIVE
deriving DecidableEq, Repr

/-- `ReplacementPolicy` of `os.py`. -/
inductive ReplacementPolicy where
  | RANDOM
  | FIFO
  | LRU
deriving DecidableEq, Repr

/-- Result of `CacheSimulator._get_eviction_index`: the returned index plus the
`fifo` and `lru` lists, which the method mutates in place. -/
structure EvictResult where
  index : Nat
  fifo : List Nat
  lru : List Nat
deriving DecidableEq, Repr

/-- `CacheSimulator._get_eviction_index`.  `random.randint(0, len-1)` raises on
an empty set and otherwise yields a uniform index in `[0, len)`; the injected
entropy `draw` is reduced `mod len`, which has exactly that range.  FIFO/LRU
lazily seed their queue from the current set contents when the queue is empty,
pop its front as victim, and look the victim up with `list.index`; a victim no
longer resident raises ValueError, hence `none`.  (The trailing `return 0` of
the source is unreachable for enum-valued policies.) -/
def get_eviction_index (policy : ReplacementPolicy)
    (cache_set fifo lru : List Nat) (draw : Nat) : Option EvictResult :=
  match policy with
  | ReplacementPolicy.RANDOM =>
      if cache_set.length = 0 then none
      else some ⟨draw % cache_set.length, fifo, lru⟩
  | ReplacementPolicy.FIFO =>
      let f := if fifo.isEmpty then cache_set else fifo
      match f with
      | [] => none
      | victim :: rest =>
          (cache_set.findIdx? (fun b => b = victim)).map
            (fun i => ⟨i, rest, lru⟩)
  | ReplacementPolicy.LRU =>
      let l := if lru.isEmpty then cache_set else lru
      match l with
      | [] => none
      | victim :: rest =>
          (cache_set.findIdx? (fun b => b = victim)).map
            (fun i => ⟨i, fifo, rest⟩)

/-- State of an `os.py` `CacheSimulator` under Direct mapping: `cache` is the
`None`-padded slot list; `history` entries are `true` for 'H'. -/
structure DirectState where
  cache : List (Option Nat)
  hits : Nat
  misses : Nat
  history : List Bool
deriving DecidableEq, Repr

/-- `CacheSimulator._direct_mapping` for one address. -/
def direct_mapping (cache_size : Nat) (st : DirectState) (address : Nat) :
    Option DirectState := do
  let cache := if st.cache.length < cache_size then
      st.cache ++ List.replicate (cache_size - st.cache.length) none
    else st.cache
  let index ← pymod address cache_size
  let entry ← cache[index]?
  if entry = some address then
    some { st with
      cache := cache,
      hits := st.hits + 1,
      history := st.history ++ [true] }
  else
    some { st with
      cache := cache.set index (some address),
      misses := st.misses + 1,
      history := st.history ++ [false] }

/-- `CacheSimulator.run` under Direct mapping (the mapping is fixed for the
run, so the loop body is `_direct_mapping` at every iteration). -/
def runDirect (cache_size : Nat) (sequence : List Nat) : Option DirectState :=
  sequence.foldlM (direct_mapping cache_size)
    { cache := [], hits := 0, misses := 0, history := [] }

/-- State of an `os.py` `CacheSimulator` under Fully-Associative mapping.
`pcount`/`rcount` are ghost counters of callback invocations and random draws,
indexing the injected policy and entropy streams. -/
structure FullyState where
  cache : List Nat
  fifo_queue : List Nat
  lru_stack : List Nat
  hits : Nat
  misses : Nat
  history : List Bool
  pcount : Nat
  rcount : Nat
deriving DecidableEq, Repr

/-- `CacheSimulator._fully_associative` for one address; `pcb` models
`ask_policy_callback` and `ds` the random generator. -/
def fully_associative (cache_size : Nat) (pcb : Nat → ReplacementPolicy)
    (ds : Nat → Nat) (st : FullyState) (address : Nat) : Option FullyState :=
  if st.cache.contains address then
    some { st with hits := st.hits + 1, history := st.history ++ [true] }
  else
    let st := { st with
      misses := st.misses + 1,
      history := st.history ++ [false] }
    if st.cache.length < cache_size then
      some { st with cache := st.cache ++ [address] }
    else
      let policy := pcb st.pcount
      (get_eviction_index policy st.cache st.fifo_queue st.lru_stack
          (ds st.rcount)).map (fun er =>
        { st with
          cache := st.cache.set er.index address,
          fifo_queue := er.fifo,
          lru_stack := er.lru,
          pcount := st.pcount + 1,
          rcount := st.rcount +
            (if policy = ReplacementPolicy.RANDOM then 1 else 0) })

/-- `CacheSimulator.run` under Fully-Associative mapping. -/
def runFully (cache_size : Nat) (pcb : Nat → ReplacementPolicy)
    (ds : Nat → Nat) (sequence : List Nat) : Option FullyState :=
  sequence.foldlM (fully_associative cache_size pcb ds)
    { cache := [], fifo_queue := [], lru_stack := [], hits := 0, misses := 0,
      history := [], pcount := 0, rcount := 0 }

/-- State of an `os.py` `CacheSimulator` under Set-Associative mapping; the
dicts `fifo_queues` / `lru_stacks` keyed `0..num_sets-1` are lists indexed by
set number. -/
structure SetAssocState where
  num_sets : Nat
  cache : List (List Nat)
  fifo_queues : List (List Nat)
  lru_stacks : List (List Nat)
  hits : Nat
  misses : Nat
  history : List Bool
  pcount : Nat
  rcount : Nat
deriving DecidableEq, Repr

/-- `CacheSimulator.__init__` under Set-Associative mapping:
`num_sets = cache_size // associativity` (ZeroDivisionError when the given
associativity is 0, hence `none`). -/
def SetAssocState.init (cache_size associativity : Nat) :
    Option SetAssocState :=
  if associativity = 0 then none
  else
    let num_sets := cache_size / associativity
    some { num_sets := num_sets,
           cache := List.replicate num_sets [],
           fifo_queues := List.replicate num_sets [],
           lru_stacks := List.replicate num_sets [],
           hits := 0, misses := 0, history := [], pcount := 0, rcount := 0 }

/-- `CacheSimulator._set_associative` for one address. -/
def set_associative (associativity : Nat) (pcb : Nat → ReplacementPolicy)
    (ds : Nat → Nat) (st : SetAssocState) (address : Nat) :
    Option SetAssocState := do
  let set_index ← pymod address st.num_sets
  let cache_set ← st.cache[set_index]?
  if cache_set.contains address then
    some { st with hits := st.hits + 1, history := st.history ++ [true] }
  else
    let st := { st with
      misses := st.misses + 1,
      history := st.history ++ [false] }
    if cache_set.length < associativity then
      some { st with
        cache := st.cache.set set_index (cache_set ++ [address]) }
    else
      let policy := pcb st.pcount
      let fifo ← st.fifo_queues[set_index]?
      let lru ← st.lru_stacks[set_index]?
      (get_eviction_index policy cache_set fifo lru (ds st.rcount)).map
        (fun er =>
          { st with
            cache := st.cache.set set_index (cache_set.set er.index address),
            fifo_queues := st.fifo_queues.set set_index er.fifo,
            lru_stacks := st.lru_stacks.set set_index er.lru,
            pcount := st.pcount + 1,
            rcount := st.rcount +
              (if policy = ReplacementPolicy.RANDOM then 1 else 0) })

/-- `CacheSimulator.run` under Set-Associative mapping (construction plus the
access loop). -/
def runSetAssoc (cache_size associativity : Nat)
    (pcb : Nat → ReplacementPolicy) (ds : Nat → Nat) (sequence : List Nat) :
    Option SetAssocState :=
  (SetAssocState.init cache_size associativity).bind (fun st0 =>
    sequence.foldlM (set_associative associativity pcb ds) st0)

end OsSim

namespace CacheSim

/-- Associativity each set receives in `Cache.__init__` for this mapping. -/
def assocOf (cfg : Config) : Nat :=
  match cfg.mapping with
  | Mapping.direct => 1
  | Mapping.fullyAssoc => cfg.cache_size
  | Mapping.setAssoc => cfg.cache_size / 2

/-- Number of sets `Cache.__init__` allocates for this mapping. -/
def setCountOf (cfg : Config) : Nat :=
  match cfg.mapping with
  | Mapping.direct => cfg.cache_size
  | Mapping.fullyAssoc => 1
  | Mapping.setAssoc => 2

/-- Valid geometry (spec §3 applied to the associativity this implementation
derives from the mapping): positive capacity and at least one block per set
(for Set-Associative this means `cache_size ≥ 2`). -/
def Config.valid (cfg : Config) : Prop :=
  0 < cfg.cache_size ∧ 1 ≤ assocOf cfg

instance (cfg : Config) : Decidable cfg.valid := by
  unfold Config.valid; infer_instance

/-- Well-formedness of one set: no duplicate tags and at most `associativity`
resident blocks (spec §3, `members`). -/
def SetWF (s : CacheSet) : Prop :=
  s.blocks.Nodup ∧ s.blocks.length ≤ s.associativity

instance (s : CacheSet) : Decidable (SetWF s) := by
  unfold SetWF; infer_instance

/-- Engine invariant: the cache fields still describe `cfg` and every set is
well formed with the associativity `Cache.__init__` gave it. -/
def Inv (cfg : Config) (st : SimState) : Prop :=
  st.cache.mapping = cfg.mapping ∧
  st.cache.replacement_policy = cfg.replacement_policy ∧
  st.cache.cache_size = cfg.cache_size ∧
  st.cache.sets.length = setCountOf cfg ∧
  ∀ s ∈ st.cache.sets, s.associativity = assocOf cfg ∧ SetWF s

instance (cfg : Config) (st : SimState) : Decidable (Inv cfg st) := by
  unfold Inv; infer_instance

/-- The set at index `i` (empty dummy when out of range). -/
def setAt (st : SimState) (i : Nat) : CacheSet :=
  (st.cache.sets[i]?).getD ⟨[], 0⟩

/-- The resident tags of set `i`, in list order (for LRU this is the recency
order, oldest first; hits rotate the matched tag to the end). -/
def blocksAt (st : SimState) (i : Nat) : List Nat :=
  (setAt st i).blocks

/-- The mapper sends address `a` to set `i` in state `st`. -/
def mapsTo (st : SimState) (a i : Nat) : Prop :=
  st.cache.get_set_index a = some i

/-- Accessing `a` in state `st` is a HIT in set `i`. -/
def hitOn (st : SimState) (a i : Nat) : Prop :=
  mapsTo st a i ∧ a ∈ blocksAt st i

/-- Accessing `a` in state `st` is a MISS into the full set `i`, forcing an
eviction. -/
def evictOn (st : SimState) (a i : Nat) : Prop :=
  mapsTo st a i ∧ a ∉ blocksAt st i ∧ (setAt st i).is_full = true

instance (st : SimState) (a i : Nat) : Decidable (mapsTo st a i) := by
  unfold mapsTo; infer_instance

instance (st : SimState) (a i : Nat) : Decidable (hitOn st a i) := by
  unfold hitOn; infer_instance

instance (st : SimState) (a i : Nat) : Decidable (evictOn st a i) := by
  unfold evictOn; infer_instance

/-- Tags inserted into set `i` so far, in insertion order (ghost log). -/
def insAt (st : SimState) (i : Nat) : List Nat :=
  st.ins_log.filterMap (fun p => if p.1 = i then some p.2 else none)

/-- Tags evicted from set `i` so far, in eviction order (ghost log). -/
def evAt (st : SimState) (i : Nat) : List Nat :=
  st.ev_log.filterMap (fun p => if p.1 = i then some p.2 else none)

/-- Along the address list, no step is a HIT in set `i` and none evicts from
set `i` (the states are threaded through `step`). -/
def noHitNoEvict (i : Nat) : SimState → List Nat → Prop
  | _, [] => True
  | st, a :: rest =>
      ¬hitOn st a i ∧ ¬evictOn st a i ∧
      (match st.step a with
       | none => True
       | some st2 => noHitNoEvict i st2 rest)

/-- FIFO bookkeeping invariant: for every set, the insertion log equals the
eviction log followed by the current residents (so evictions happen in
insertion order). -/
def FifoInv (st : SimState) : Prop :=
  ∀ i, insAt st i = evAt st i ++ blocksAt st i

/-- Successor state on the HIT branch of `CacheSimulator.run`. -/
def SimState.hitUpd (st : SimState) (i : Nat) (s : CacheSet) (a : Nat) :
    SimState :=
  { st with
    cache := { st.cache with
      sets := st.cache.sets.set i
        (if st.cache.replacement_policy = Policy.lru then
          apply_lru_policy s a
        else s) },
    hits := st.hits + 1,
    access_log := st.access_log ++ [(a, true)] }

/-- Successor state on the MISS branch of `CacheSimulator.run`: the new
contents of the touched set is `s2`, `ev` the evicted tag if any. -/
def SimState.missUpd (st : SimState) (i : Nat) (a : Nat) (s2 : CacheSet)
    (ev : Option Nat) : SimState :=
  { st with
    cache := { st.cache with sets := st.cache.sets.set i s2 },
    misses := st.misses + 1,
    access_log := st.access_log ++ [(a, false)],
    ins_log := st.ins_log ++ [(i, a)],
    ev_log := st.ev_log ++ (match ev with
      | some v => [(i, v)]
      | none => []) }

end CacheSim

namespace CacheSim

theorem find?_eq_mem (l : List Nat) (a : Nat) :
    l.find? (fun b => b = a) = if a ∈ l then some a else none := by
  induction l with
  | nil => simp
  | cons x xs ih =>
      by_cases hx : x = a
      · subst hx; simp [List.find?]
      · have hax : ¬(a = x) := fun h => hx h.symm
        simp [List.find?, hx, hax, ih]

theorem find_block_eq (s : CacheSet) (a : Nat) :
    s.find_block a = if a ∈ s.blocks then some a else none :=
  find?_eq_mem s.blocks a

theorem step_hit (st : SimState) (a i : Nat) (s : CacheSet)
    (hi : st.cache.get_set_index a = some i)
    (hs : st.cache.sets[i]? = some s) (hm : a ∈ s.blocks) :
    st.step a = some (st.hitUpd i s a) := by
  simp [SimState.step, hi, hs, find_block_eq, hm, SimState.hitUpd]

theorem step_miss_notfull (st : SimState) (a i : Nat) (s : CacheSet)
    (hi : st.cache.get_set_index a = some i)
    (hs : st.cache.sets[i]? = some s) (hm : a ∉ s.blocks)
    (hf : s.is_full = false) :
    st.step a = some (st.missUpd i a (s.add_block a) none) := by
  simp [SimState.step, hi, hs, find_block_eq, hm, hf, SimState.missUpd]

theorem step_miss_full (st : SimState) (a i : Nat) (s : CacheSet)
    (v : Nat) (rest : List Nat)
    (hi : st.cache.get_set_index a = some i)
    (hs : st.cache.sets[i]? = some s) (hm : a ∉ s.blocks)
    (hf : s.is_full = true) (hb : s.blocks = v :: rest) :
    st.step a =
      some (st.missUpd i a ⟨rest ++ [a], s.associativity⟩ (some v)) := by
  have hm2 : ¬(a = v ∨ a ∈ rest) := by
    rw [hb] at hm; simpa using hm
  simp [SimState.step, hi, hs, find_block_eq, hm2, hf, SimState.missUpd,
    CacheSet.remove_block, hb, CacheSet.add_block]

theorem step_some_cases {st : SimState} {a : Nat} {st2 : SimState}
    (h : st.step a = some st2) :
    ∃ i s, st.cache.get_set_index a = some i ∧
      st.cache.sets[i]? = some s ∧
      ((a ∈ s.blocks ∧ st2 = st.hitUpd i s a) ∨
       (a ∉ s.blocks ∧ s.is_full = false ∧
         st2 = st.missUpd i a (s.add_block a) none) ∨
       (a ∉ s.blocks ∧ s.is_full = true ∧ ∃ v rest, s.blocks = v :: rest ∧
         st2 = st.missUpd i a ⟨rest ++ [a], s.associativity⟩ (some v))) := by
  cases hi : st.cache.get_set_index a with
  | none => simp [SimState.step, hi] at h
  | some i =>
      cases hs : st.cache.sets[i]? with
      | none => simp [SimState.step, hi, hs] at h
      | some s =>
          refine ⟨i, s, rfl, hs, ?_⟩
          by_cases hm : a ∈ s.blocks
          · rw [step_hit st a i s hi hs hm] at h
            exact Or.inl ⟨hm, (Option.some.inj h).symm⟩
          · cases hf : s.is_full with
            | false =>
                rw [step_miss_notfull st a i s hi hs hm hf] at h
                exact Or.inr (Or.inl ⟨hm, rfl, (Option.some.inj h).symm⟩)
            | true =>
                cases hb : s.blocks with
                | nil =>
                    simp [SimState.step, hi, hs, find_block_eq, hm, hf,
                      CacheSet.remove_block, hb] at h
                | cons v rest =>
                    rw [step_miss_full st a i s v rest hi hs hm hf hb] at h
                    exact Or.inr (Or.inr ⟨hb ▸ hm, rfl, v, rest, rfl,
                      (Option.some.inj h).symm⟩)

theorem step_fields {st : SimState} {a : Nat} {st2 : SimState}
    (h : st.step a = some st2) :
    st2.cache.mapping = st.cache.mapping ∧
    st2.cache.replacement_policy = st.cache.replacement_policy ∧
    st2.cache.cache_size = st.cache.cache_size ∧
    st2.cache.sets.length = st.cache.sets.length := by
  obtain ⟨i, s, hi, hs, hc⟩ := step_some_cases h
  rcases hc with ⟨hm, rfl⟩ | ⟨hm, hf, rfl⟩ | ⟨hm, hf, v, rest, hb, rfl⟩ <;>
    simp [SimState.hitUpd, SimState.missUpd]

theorem apply_lru_assoc (s : CacheSet) (a : Nat) :
    (apply_lru_policy s a).associativity = s.associativity := by
  unfold apply_lru_policy; split <;> rfl

theorem SetWF_apply_lru {s : CacheSet} (a : Nat) (h : SetWF s) :
    SetWF (apply_lru_policy s a) := by
  obtain ⟨hnd, hlen⟩ := h
  unfold apply_lru_policy
  split
  case isTrue hc =>
    have hmem : a ∈ s.blocks := by simpa using hc
    have h1 : (s.blocks.erase a).Nodup := hnd.erase a
    have h2 : a ∉ s.blocks.erase a := hnd.not_mem_erase
    have h3 := List.length_erase_of_mem hmem
    have h4 : 0 < s.blocks.length := List.length_pos.mpr
      (List.ne_nil_of_mem hmem)
    constructor
    · simp [SetWF, List.nodup_append, h1, h2]
    · simp only [List.length_append, List.length_cons, List.length_nil, h3]
      omega
  case isFalse => exact ⟨hnd, hlen⟩

/-- Characterization of the touched set: a successful step rewrites exactly one
set, keeping its associativity and its well-formedness. -/
theorem step_newset {st : SimState} {a : Nat} {st2 : SimState}
    (h : st.step a = some st2) :
    ∃ i s s2, st.cache.sets[i]? = some s ∧
      st2.cache.sets = st.cache.sets.set i s2 ∧
      s2.associativity = s.associativity ∧ (SetWF s → SetWF s2) := by
  obtain ⟨i, s, hi, hs, hc⟩ := step_some_cases h
  rcases hc with ⟨hm, rfl⟩ | ⟨hm, hf, rfl⟩ | ⟨hm, hf, v, rest, hb, rfl⟩
  · refine ⟨i, s,
      (if st.cache.replacement_policy = Policy.lru then
        apply_lru_policy s a else s), hs, by simp [SimState.hitUpd], ?_, ?_⟩
    · split
      · exact apply_lru_assoc s a
      · rfl
    · intro hw
      split
      · exact SetWF_apply_lru a hw
      · exact hw
  · refine ⟨i, s, s.add_block a, hs, by simp [SimState.missUpd], rfl, ?_⟩
    intro hw
    have hlt : s.blocks.length < s.associativity := by
      simpa [CacheSet.is_full] using hf
    refine ⟨?_, ?_⟩
    · simp [CacheSet.add_block, List.nodup_append, hw.1, hm]
    · simp [CacheSet.add_block]
      omega
  · refine ⟨i, s, ⟨rest ++ [a], s.associativity⟩, hs,
      by simp [SimState.missUpd], rfl, ?_⟩
    intro hw
    have hnd : (v :: rest).Nodup := hb ▸ hw.1
    have hlen : rest.length + 1 ≤ s.associativity := by
      have := hw.2
      rw [hb] at this
      simpa using this
    have hm2 : a ∉ rest := fun hr => hm (hb ▸ List.mem_cons_of_mem v hr)
    refine ⟨?_, ?_⟩
    · simp [List.nodup_append, hnd.of_cons, hm2]
    · simpa using hlen

theorem step_setWF {st : SimState} {a : Nat} {st2 : SimState}
    (hw : ∀ s ∈ st.cache.sets, SetWF s) (h : st.step a = some st2) :
    ∀ s ∈ st2.cache.sets, SetWF s := by
  obtain ⟨i, s, s2, hs, hsets, hassoc, hwf⟩ := step_newset h
  intro t ht
  rw [hsets] at ht
  rcases List.mem_or_eq_of_mem_set ht with h1 | rfl
  · exact hw t h1
  · exact hwf (hw s (List.getElem?_mem hs))

theorem step_Inv {cfg : Config} {st : SimState} {a : Nat} {st2 : SimState}
    (hI : Inv cfg st) (h : st.step a = some st2) : Inv cfg st2 := by
  obtain ⟨h1, h2, h3, h4, h5⟩ := hI
  obtain ⟨hmap, hpol, hsz, hlen⟩ := step_fields h
  refine ⟨hmap.trans h1, hpol.trans h2, hsz.trans h3, hlen.trans h4, ?_⟩
  obtain ⟨i, s, s2, hs, hsets, hassoc, hwf⟩ := step_newset h
  obtain ⟨hsa, hsw⟩ := h5 s (List.getElem?_mem hs)
  intro t ht
  rw [hsets] at ht
  rcases List.mem_or_eq_of_mem_set ht with ho | rfl
  · exact h5 t ho
  · exact ⟨hassoc.trans hsa, hwf hsw⟩

theorem Inv_init (cfg : Config) : Inv cfg (SimState.init cfg) := by
  refine ⟨rfl, rfl, rfl, ?_, ?_⟩
  · show (Cache.init cfg).sets.length = setCountOf cfg
    unfold Cache.init setCountOf
    cases cfg.mapping <;> simp
  · show ∀ s ∈ (Cache.init cfg).sets, _
    unfold Cache.init assocOf
    cases cfg.mapping <;> intro s hs <;> simp_all <;>
      simp [hs, SetWF]

theorem step_total {cfg : Config} {st : SimState} (a : Nat)
    (hv : cfg.valid) (hI : Inv cfg st) : ∃ st2, st.step a = some st2 := by
  obtain ⟨h1, h2, h3, h4, h5⟩ := hI
  obtain ⟨hcs, hassoc⟩ := hv
  have hidx : ∃ i, st.cache.get_set_index a = some i ∧
      i < st.cache.sets.length := by
    cases hmp : cfg.mapping with
    | direct =>
        have hne : cfg.cache_size ≠ 0 := by omega
        refine ⟨a % cfg.cache_size, ?_, ?_⟩
        · simp [Cache.get_set_index, h1, hmp, pymod, h3, hne]
        · rw [h4]
          simp [setCountOf, hmp]
          exact Nat.mod_lt a hcs
    | fullyAssoc =>
        refine ⟨0, ?_, ?_⟩
        · simp [Cache.get_set_index, h1, hmp]
        · rw [h4]; simp [setCountOf, hmp]
    | setAssoc =>
        have hl : st.cache.sets.length = 2 := by
          rw [h4]; simp [setCountOf, hmp]
        refine ⟨a % 2, ?_, ?_⟩
        · simp [Cache.get_set_index, h1, hmp, pymod, hl]
        · rw [hl]
          exact Nat.mod_lt a (by omega)
  obtain ⟨i, hi, hlt⟩ := hidx
  obtain ⟨s, hs⟩ : ∃ s, st.cache.sets[i]? = some s :=
    ⟨_, List.getElem?_eq_getElem hlt⟩
  by_cases hm : a ∈ s.blocks
  · exact ⟨_, step_hit st a i s hi hs hm⟩
  · cases hf : s.is_full with
    | false => exact ⟨_, step_miss_notfull st a i s hi hs hm hf⟩
    | true =>
        have hsa := (h5 s (List.getElem?_mem hs)).1
        have hge : s.associativity ≤ s.blocks.length := by
          simpa [CacheSet.is_full] using hf
        have hpos : 0 < s.blocks.length := by
          rw [hsa] at hge; omega
        cases hb : s.blocks with
        | nil => rw [hb] at hpos; simp at hpos
        | cons v rest => exact ⟨_, step_miss_full st a i s v rest hi hs hm hf hb⟩

theorem foldl_total_inv {cfg : Config} (hv : cfg.valid) :
    ∀ (seq : List Nat) (st : SimState), Inv cfg st →
      ∃ st2, seq.foldlM SimState.step st = some st2 ∧ Inv cfg st2 := by
  intro seq
  induction seq with
  | nil => intro st hI; exact ⟨st, rfl, hI⟩
  | cons a rest ih =>
      intro st hI
      obtain ⟨st1, hst1⟩ := step_total a hv hI
      obtain ⟨st2, hst2, hI2⟩ := ih st1 (step_Inv hI hst1)
      refine ⟨st2, ?_, hI2⟩
      rw [List.foldlM_cons, hst1]
      simpa using hst2

theorem step_counts {st : SimState} {a : Nat} {st2 : SimState}
    (h : st.step a = some st2) :
    st2.hits + st2.misses = st.hits + st.misses + 1 ∧
    st2.access_log.length = st.access_log.length + 1 := by
  obtain ⟨i, s, hi, hs, hc⟩ := step_some_cases h
  rcases hc with ⟨hm, rfl⟩ | ⟨hm, hf, rfl⟩ | ⟨hm, hf, v, rest, hb, rfl⟩ <;>
    simp [SimState.hitUpd, SimState.missUpd] <;> omega

theorem step_log_entry {st : SimState} {a : Nat} {st2 : SimState}
    (h : st.step a = some st2) :
    ∃ b, st2.access_log = st.access_log ++ [(a, b)] := by
  obtain ⟨i, s, hi, hs, hc⟩ := step_some_cases h
  rcases hc with ⟨hm, rfl⟩ | ⟨hm, hf, rfl⟩ | ⟨hm, hf, v, rest, hb, rfl⟩
  · exact ⟨true, by simp [SimState.hitUpd]⟩
  · exact ⟨false, by simp [SimState.missUpd]⟩
  · exact ⟨false, by simp [SimState.missUpd]⟩

end CacheSim

section Counting

universe u
variable {σ : Type u}

/-- Any stepper that adds exactly one to `hc + mc` and one to `lc` per access
adds the sequence length over a completed fold. -/
theorem foldlM_counts (f : σ → Nat → Option σ) (hc mc lc : σ → Nat)
    (H : ∀ s a s2, f s a = some s2 →
      hc s2 + mc s2 = hc s + mc s + 1 ∧ lc s2 = lc s + 1) :
    ∀ (seq : List Nat) (s0 s1 : σ), seq.foldlM f s0 = some s1 →
      hc s1 + mc s1 = hc s0 + mc s0 + seq.length ∧
      lc s1 = lc s0 + seq.length := by
  intro seq
  induction seq with
  | nil =>
      intro s0 s1 h
      simp [List.foldlM] at h
      subst h
      simp
  | cons a rest ih =>
      intro s0 s1 h
      rw [List.foldlM_cons] at h
      cases hf : f s0 a with
      | none => rw [hf] at h; simp at h
      | some s3 =>
          rw [hf] at h
          simp only [bind, Option.some_bind] at h
          obtain ⟨e1, e2⟩ := H s0 a s3 hf
          obtain ⟨e3, e4⟩ := ih s3 s1 h
          refine ⟨?_, ?_⟩ <;> simp [List.length_cons] <;> omega

/-- Any stepper that appends exactly the accessed address (with some outcome
flag) to the log yields a log whose addresses are the input in order. -/
theorem foldlM_log (f : σ → Nat → Option σ) (v : σ → List (Nat × Bool))
    (H : ∀ s a s2, f s a = some s2 → ∃ b, v s2 = v s ++ [(a, b)]) :
    ∀ (seq : List Nat) (s0 s1 : σ), seq.foldlM f s0 = some s1 →
      (v s1).map Prod.fst = (v s0).map Prod.fst ++ seq := by
  intro seq
  induction seq with
  | nil =>
      intro s0 s1 h
      simp [List.foldlM] at h
      subst h
      simp
  | cons a rest ih =>
      intro s0 s1 h
      rw [List.foldlM_cons] at h
      cases hf : f s0 a with
      | none => rw [hf] at h; simp at h
      | some s3 =>
          rw [hf] at h
          simp only [bind, Option.some_bind] at h
          obtain ⟨b, e⟩ := H s0 a s3 hf
          have := ih s3 s1 h
          rw [this, e]
          simp

end Counting

namespace OsSim

theorem direct_counts {cs : Nat} {st st2 : DirectState} {a : Nat}
    (h : direct_mapping cs st a = some st2) :
    st2.hits + st2.misses = st.hits + st.misses + 1 ∧
    st2.history.length = st.history.length + 1 := by
  simp only [direct_mapping, bind, Option.bind_eq_some] at h
  obtain ⟨idx, hp, h⟩ := h
  obtain ⟨entry, he, h⟩ := h
  split at h <;> cases h <;> simp <;> omega

theorem fully_counts {cs : Nat} {pcb : Nat → ReplacementPolicy}
    {ds : Nat → Nat} {st st2 : FullyState} {a : Nat}
    (h : fully_associative cs pcb ds st a = some st2) :
    st2.hits + st2.misses = st.hits + st.misses + 1 ∧
    st2.history.length = st.history.length + 1 := by
  by_cases hm : a ∈ st.cache
  · simp [fully_associative, hm] at h
    subst h
    refine ⟨by simp <;> omega, by simp⟩
  · by_cases hlt : st.cache.length < cs
    · simp [fully_associative, hm, hlt] at h
      subst h
      refine ⟨by simp <;> omega, by simp⟩
    · cases hev : get_eviction_index (pcb st.pcount) st.cache st.fifo_queue
        st.lru_stack (ds st.rcount) with
      | none => simp [fully_associative, hm, hlt, hev] at h
      | some er =>
          simp [fully_associative, hm, hlt, hev] at h
          subst h
          refine ⟨by simp <;> omega, by simp⟩

theorem set_assoc_counts {assoc : Nat} {pcb : Nat → ReplacementPolicy}
    {ds : Nat → Nat} {st st2 : SetAssocState} {a : Nat}
    (h : set_associative assoc pcb ds st a = some st2) :
    st2.hits + st2.misses = st.hits + st.misses + 1 ∧
    st2.history.length = st.history.length + 1 := by
  cases hp : pymod a st.num_sets with
  | none => simp [set_associative, hp] at h
  | some idx =>
  cases hc : st.cache[idx]? with
  | none => simp [set_associative, hp, hc] at h
  | some cset =>
  by_cases hm : a ∈ cset
  · simp [set_associative, hp, hc, hm] at h
    subst h
    refine ⟨by simp <;> omega, by simp⟩
  · by_cases hlt : cset.length < assoc
    · simp [set_associative, hp, hc, hm, hlt] at h
      subst h
      refine ⟨by simp <;> omega, by simp⟩
    · cases hff : st.fifo_queues[idx]? with
      | none => simp [set_associative, hp, hc, hm, hlt, hff] at h
      | some fifo =>
      cases hll : st.lru_stacks[idx]? with
      | none => simp [set_associative, hp, hc, hm, hlt, hff, hll] at h
      | some lru =>
      cases hev : get_eviction_index (pcb st.pcount) cset fifo lru
          (ds st.rcount) with
      | none => simp [set_associative, hp, hc, hm, hlt, hff, hll, hev] at h
      | some er =>
          simp [set_associative, hp, hc, hm, hlt, hff, hll, hev] at h
          subst h
          refine ⟨by simp <;> omega, by simp⟩

end OsSim

namespace CacheSim

/-- Per-set projection of a ghost log. -/
theorem filterMap_append_entry (l : List (Nat × Nat)) (i j a : Nat) :
    ((l ++ [(j, a)]).filterMap
        (fun p => if p.1 = i then some p.2 else none)) =
      l.filterMap (fun p => if p.1 = i then some p.2 else none) ++
        (if j = i then [a] else []) := by
  rw [List.filterMap_append]
  split <;> simp_all

theorem blocksAt_eq_of_getElem {st : SimState} {i : Nat} {s : CacheSet}
    (hs : st.cache.sets[i]? = some s) : blocksAt st i = s.blocks := by
  simp [blocksAt, setAt, hs]

theorem blocksAt_hitUpd_self {st : SimState} {i : Nat} {s : CacheSet}
    (hs : st.cache.sets[i]? = some s) (a : Nat) :
    blocksAt (st.hitUpd i s a) i =
      (if st.cache.replacement_policy = Policy.lru then
        apply_lru_policy s a else s).blocks := by
  have hlt : i < st.cache.sets.length := by
    by_contra hge
    rw [List.getElem?_eq_none (by omega)] at hs
    cases hs
  simp [blocksAt, setAt, SimState.hitUpd, List.getElem?_set_eq,
    (by simpa using hlt : i < st.cache.sets.length)]

theorem blocksAt_missUpd_self {st : SimState} {i : Nat} {s : CacheSet}
    (hs : st.cache.sets[i]? = some s) (a : Nat) (s2 : CacheSet)
    (ev : Option Nat) :
    blocksAt (st.missUpd i a s2 ev) i = s2.blocks := by
  have hlt : i < st.cache.sets.length := by
    by_contra hge
    rw [List.getElem?_eq_none (by omega)] at hs
    cases hs
  simp [blocksAt, setAt, SimState.missUpd, List.getElem?_set_eq, hlt]

theorem blocksAt_hitUpd_other {st : SimState} {i j : Nat} (hne : i ≠ j)
    (s : CacheSet) (a : Nat) :
    blocksAt (st.hitUpd i s a) j = blocksAt st j := by
  simp [blocksAt, setAt, SimState.hitUpd, List.getElem?_set_ne hne]

theorem blocksAt_missUpd_other {st : SimState} {i j : Nat} (hne : i ≠ j)
    (a : Nat) (s2 : CacheSet) (ev : Option Nat) :
    blocksAt (st.missUpd i a s2 ev) j = blocksAt st j := by
  simp [blocksAt, setAt, SimState.missUpd, List.getElem?_set_ne hne]

theorem step_fifoInv {st : SimState} {a : Nat} {st2 : SimState}
    (hpol : st.cache.replacement_policy = Policy.fifo)
    (h : st.step a = some st2) (hF : FifoInv st) : FifoInv st2 := by
  obtain ⟨i, s, hi, hs, hc⟩ := step_some_cases h
  have hnl : ¬(st.cache.replacement_policy = Policy.lru) := by
    rw [hpol]; intro hx; cases hx
  rcases hc with ⟨hm, rfl⟩ | ⟨hm, hf, rfl⟩ | ⟨hm, hf, v, rest, hb, rfl⟩
  · intro j
    have hlog1 : insAt (st.hitUpd i s a) j = insAt st j := by
      simp [insAt, SimState.hitUpd]
    have hlog2 : evAt (st.hitUpd i s a) j = evAt st j := by
      simp [evAt, SimState.hitUpd]
    rw [hlog1, hlog2]
    by_cases hij : i = j
    · subst hij
      rw [blocksAt_hitUpd_self hs a, if_neg hnl, ← blocksAt_eq_of_getElem hs]
      exact hF i
    · rw [blocksAt_hitUpd_other hij s a]
      exact hF j
  · intro j
    have hlog1 : insAt (st.missUpd i a (s.add_block a) none) j =
        insAt st j ++ (if i = j then [a] else []) := by
      simp only [insAt, SimState.missUpd]
      exact filterMap_append_entry st.ins_log j i a
    have hlog2 : evAt (st.missUpd i a (s.add_block a) none) j = evAt st j := by
      simp [evAt, SimState.missUpd]
    rw [hlog1, hlog2]
    by_cases hij : i = j
    · subst hij
      rw [blocksAt_missUpd_self hs a (s.add_block a) none, if_pos rfl]
      have := hF i
      rw [blocksAt_eq_of_getElem hs] at this
      simp [CacheSet.add_block, this]
    · rw [blocksAt_missUpd_other hij a (s.add_block a) none, if_neg hij]
      simp [hF j]
  · intro j
    have hlog1 : insAt (st.missUpd i a ⟨rest ++ [a], s.associativity⟩
        (some v)) j = insAt st j ++ (if i = j then [a] else []) := by
      simp only [insAt, SimState.missUpd]
      exact filterMap_append_entry st.ins_log j i a
    have hlog2 : evAt (st.missUpd i a ⟨rest ++ [a], s.associativity⟩
        (some v)) j = evAt st j ++ (if i = j then [v] else []) := by
      simp only [evAt, SimState.missUpd]
      exact filterMap_append_entry st.ev_log j i v
    rw [hlog1, hlog2]
    by_cases hij : i = j
    · subst hij
      rw [blocksAt_missUpd_self hs a ⟨rest ++ [a], s.associativity⟩ (some v),
        if_pos rfl, if_pos rfl]
      have := hF i
      rw [blocksAt_eq_of_getElem hs, hb] at this
      simp [this]
    · rw [blocksAt_missUpd_other hij a ⟨rest ++ [a], s.associativity⟩
        (some v), if_neg hij, if_neg hij]
      simp [hF j]

theorem blocksAt_init (cfg : Config) (i : Nat) :
    blocksAt (SimState.init cfg) i = [] := by
  unfold blocksAt setAt SimState.init Cache.init
  cases cfg.mapping with
  | direct =>
      simp only [List.getElem?_replicate]
      split <;> simp
  | fullyAssoc =>
      match i with
      | 0 => rfl
      | n + 1 => rfl
  | setAssoc =>
      match i with
      | 0 => rfl
      | 1 => rfl
      | n + 2 => rfl

theorem fifoInv_init (cfg : Config) : FifoInv (SimState.init cfg) := by
  intro i
  rw [blocksAt_init]
  simp [insAt, evAt, SimState.init]

theorem step_policy_eq {st : SimState} {a : Nat} {st2 : SimState}
    (h : st.step a = some st2) :
    st2.cache.replacement_policy = st.cache.replacement_policy :=
  (step_fields h).2.1

theorem foldl_fifoInv {cfg : Config} (hv : cfg.valid)
    (hp : cfg.replacement_policy = Policy.fifo) :
    ∀ (seq : List Nat) (st : SimState), Inv cfg st → FifoInv st →
      ∃ st2, seq.foldlM SimState.step st = some st2 ∧ Inv cfg st2 ∧
        FifoInv st2 := by
  intro seq
  induction seq with
  | nil => intro st hI hF; exact ⟨st, rfl, hI, hF⟩
  | cons a rest ih =>
      intro st hI hF
      obtain ⟨st1, hst1⟩ := step_total a hv hI
      have hI1 := step_Inv hI hst1
      have hF1 := step_fifoInv (hI.2.1.trans hp) hst1 hF
      obtain ⟨st2, hst2, hI2, hF2⟩ := ih st1 hI1 hF1
      refine ⟨st2, ?_, hI2, hF2⟩
      rw [List.foldlM_cons, hst1]
      simpa using hst2

end CacheSim

/-- C1: for every valid configuration and every input sequence, the engine
completes and `hit_count + miss_count` equals the sequence length, the trace
has one entry per input address in input order (fixed-policy engine of
`cache_simulator.py`); for the `os.py` engine, every completed run under any
mapping likewise satisfies the counter and trace-length equalities. -/
theorem C1_totals :
    (∀ (cfg : CacheSim.Config) (seq : List Nat), cfg.valid →
      ∃ st, CacheSim.runState cfg seq = some st ∧
        st.hits + st.misses = seq.length ∧
        st.access_log.length = seq.length ∧
        st.access_log.map Prod.fst = seq) ∧
    (∀ (cs : Nat) (seq : List Nat) (st : OsSim.DirectState),
      OsSim.runDirect cs seq = some st →
        st.hits + st.misses = seq.length ∧ st.history.length = seq.length) ∧
    (∀ (cs : Nat) (pcb : Nat → OsSim.ReplacementPolicy) (ds : Nat → Nat)
        (seq : List Nat) (st : OsSim.FullyState),
      OsSim.runFully cs pcb ds seq = some st →
        st.hits + st.misses = seq.length ∧ st.history.length = seq.length) ∧
    (∀ (cs assoc : Nat) (pcb : Nat → OsSim.ReplacementPolicy) (ds : Nat → Nat)
        (seq : List Nat) (st : OsSim.SetAssocState),
      OsSim.runSetAssoc cs assoc pcb ds seq = some st →
        st.hits + st.misses = seq.length ∧ st.history.length = seq.length) := by
  refine ⟨?_, ?_, ?_, ?_⟩
  · intro cfg seq hv
    obtain ⟨st, hrun, hInv⟩ :=
      CacheSim.foldl_total_inv hv seq (CacheSim.SimState.init cfg)
        (CacheSim.Inv_init cfg)
    refine ⟨st, hrun, ?_, ?_, ?_⟩
    · have := foldlM_counts CacheSim.SimState.step
        (fun s => s.hits) (fun s => s.misses)
        (fun s => s.access_log.length)
        (fun s a s2 h => CacheSim.step_counts h) seq _ st hrun
      simpa [CacheSim.SimState.init] using this.1
    · have := foldlM_counts CacheSim.SimState.step
        (fun s => s.hits) (fun s => s.misses)
        (fun s => s.access_log.length)
        (fun s a s2 h => CacheSim.step_counts h) seq _ st hrun
      simpa [CacheSim.SimState.init] using this.2
    · have := foldlM_log CacheSim.SimState.step (fun s => s.access_log)
        (fun s a s2 h => CacheSim.step_log_entry h) seq _ st hrun
      simpa [CacheSim.SimState.init] using this
  · intro cs seq st h
    have := foldlM_counts (OsSim.direct_mapping cs)
      (fun s => s.hits) (fun s => s.misses) (fun s => s.history.length)
      (fun s a s2 hstep => OsSim.direct_counts hstep) seq _ st h
    simpa using this
  · intro cs pcb ds seq st h
    have := foldlM_counts (OsSim.fully_associative cs pcb ds)
      (fun s => s.hits) (fun s => s.misses) (fun s => s.history.length)
      (fun s a s2 hstep => OsSim.fully_counts hstep) seq _ st h
    simpa using this
  · intro cs assoc pcb ds seq st h
    unfold OsSim.runSetAssoc at h
    rcases hinit : OsSim.SetAssocState.init cs assoc with _ | st0
    · rw [hinit] at h; simp at h
    · rw [hinit] at h
      simp only [Option.some_bind] at h
      have hcounts := foldlM_counts (OsSim.set_associative assoc pcb ds)
        (fun s => s.hits) (fun s => s.misses) (fun s => s.history.length)
        (fun s a s2 hstep => OsSim.set_assoc_counts hstep) seq st0 st h
      have h0 : st0.hits = 0 ∧ st0.misses = 0 ∧ st0.history = [] := by
        unfold OsSim.SetAssocState.init at hinit
        split at hinit
        · simp at hinit
        · cases Option.some.inj hinit
          exact ⟨rfl, rfl, rfl⟩
      obtain ⟨e1, e2, e3⟩ := h0
      constructor
      · have h1 := hcounts.1
        simp only [] at h1
        rw [e1, e2] at h1
        simpa using h1
      · have h2 := hcounts.2
        simp only [] at h2
        rw [e3] at h2
        simpa using h2

/-- C1 witness: Direct capacity 1, LRU, sequence `[0]`. -/
theorem C1_witness :
    (CacheSim.runState
        ⟨1, 1, CacheSim.Mapping.direct, CacheSim.Policy.lru⟩ [0]).map
      (fun st => (st.hits + st.misses, st.access_log.length,
        st.access_log.map Prod.fst)) = some (1, 1, [0]) := by
  obtain ⟨st, h1, h2, h3, h4⟩ :=
    C1_totals.1 ⟨1, 1, CacheSim.Mapping.direct, CacheSim.Policy.lru⟩ [0]
      (by decide)
  rw [h1]
  simp [h2, h3, h4]

/-- C4 counterexample: on the hard-coded Direct/capacity-4 input of
`get_input_data`, the engine does NOT produce `hit_count = 1` and
`miss_count = 11` (addresses 2 and 1 are both still resident when re-accessed,
so there are two hits). -/
theorem C4_counterexample :
    (CacheSim.run CacheSim.get_input_data_config
        CacheSim.get_input_data_accesses).map
      (fun r => (r.hits, r.misses)) ≠ some (1, 11) := by
  decide

/-- C4 amended: the Direct/capacity-4 run on `[1,2,3,2,4,1,5,6,2,1,7,8]`
produces `hit_count = 2` and `miss_count = 10`. -/
theorem C4_amended :
    (CacheSim.run CacheSim.get_input_data_config
        CacheSim.get_input_data_accesses).map
      (fun r => (r.hits, r.misses)) = some (2, 10) := by
  decide

/-- C5: the `os.py` engine is NOT failure-free when the replacement policy
varies per eviction.  Fully-associative, capacity 2, sequence `[1,2,3,4,5]`:
the first eviction (FIFO) snapshots the queue `[1,2]` and pops 1; the second
eviction (RANDOM, draw 1) overwrites address 2; the third eviction (FIFO) pops
the stale victim 2, and `cache_set.index(2)` raises ValueError — the run
aborts. -/
theorem C5_failing_run :
    OsSim.runFully 2
      (fun k => [OsSim.ReplacementPolicy.FIFO, OsSim.ReplacementPolicy.RANDOM,
        OsSim.ReplacementPolicy.FIFO].getD k OsSim.ReplacementPolicy.RANDOM)
      (fun _ => 1) [1, 2, 3, 4, 5] = none := by
  decide

/-- C6: the address mapper is a pure total function of the cache state and the
address: `address mod capacity` for Direct, 0 for Fully-Associative,
`address mod set_count` for Set-Associative, whenever the respective modulus is
positive (Python `%` raises on 0). -/
theorem C6_mapper (c : CacheSim.Cache) (address : Nat) :
    (c.mapping = CacheSim.Mapping.direct → 0 < c.cache_size →
      c.get_set_index address = some (address % c.cache_size)) ∧
    (c.mapping = CacheSim.Mapping.fullyAssoc →
      c.get_set_index address = some 0) ∧
    (c.mapping = CacheSim.Mapping.setAssoc → 0 < c.sets.length →
      c.get_set_index address = some (address % c.sets.length)) := by
  refine ⟨?_, ?_, ?_⟩
  · intro hm hpos
    have : c.cache_size ≠ 0 := by omega
    simp [CacheSim.Cache.get_set_index, hm, pymod, this]
  · intro hm
    simp [CacheSim.Cache.get_set_index, hm]
  · intro hm hpos
    have : c.sets.length ≠ 0 := by omega
    simp [CacheSim.Cache.get_set_index, hm, pymod, this]

/-- C6 witness: Direct cache of capacity 4 maps address 7 to set 3;
a fully-associative cache maps it to 0; a 2-set cache maps it to 1. -/
theorem C6_witness :
    (CacheSim.Cache.init CacheSim.get_input_data_config).get_set_index 7 =
      some (7 % 4) :=
  (C6_mapper (CacheSim.Cache.init CacheSim.get_input_data_config) 7).1
    (by decide) (by decide)

/-- C7 counterexample: Set-Associative with capacity 4 and associativity 3 is
invalid geometry (3 does not divide 4, so the spec demands a `ConfigError`
before any step), yet construction succeeds and the engine processes all four
accesses of `[1,2,3,4]`. -/
theorem C7_counterexample :
    (OsSim.runSetAssoc 4 3 (fun _ => OsSim.ReplacementPolicy.FIFO)
        (fun _ => 0) [1, 2, 3, 4]).map
      (fun r => (r.hits, r.misses, r.history.length)) = some (0, 4, 4) := by
  decide

/-- C7 amended: neither implementation validates geometry — `Cache.__init__`
always succeeds (allocating `setCountOf` sets for any configuration, even
invalid ones), and the `os.py` set-associative constructor succeeds for every
non-zero associativity; invalid geometry does not prevent accesses from being
processed. -/
theorem C7_amended :
    (∀ cfg : CacheSim.Config,
      (CacheSim.Cache.init cfg).sets.length = CacheSim.setCountOf cfg) ∧
    (∀ cache_size associativity : Nat, associativity ≠ 0 →
      ∃ st0, OsSim.SetAssocState.init cache_size associativity = some st0 ∧
        st0.history = []) := by
  constructor
  · intro cfg
    unfold CacheSim.Cache.init CacheSim.setCountOf
    cases cfg.mapping <;> simp
  · intro cache_size associativity h
    simp [OsSim.SetAssocState.init, h]

/-- C7 amended witness: capacity 4, associativity 3. -/
theorem C7_amended_witness :
    ∃ st0, OsSim.SetAssocState.init 4 3 = some st0 ∧ st0.history = [] :=
  C7_amended.2 4 3 (by decide)

/-- C9: the fixed-policy engine is deterministic — two runs with identical
configuration (policy LRU or FIFO) and identical sequence yield identical
trace, hit count, and miss count. -/
theorem C9_determinism (cfg : CacheSim.Config) (seq : List Nat)
    (r1 r2 : CacheSim.RunResult)
    (hpol : cfg.replacement_policy = CacheSim.Policy.lru ∨
      cfg.replacement_policy = CacheSim.Policy.fifo)
    (h1 : CacheSim.run cfg seq = some r1)
    (h2 : CacheSim.run cfg seq = some r2) :
    r1.log = r2.log ∧ r1.hits = r2.hits ∧ r1.misses = r2.misses := by
  rw [h1] at h2
  cases Option.some.inj h2
  exact ⟨rfl, rfl, rfl⟩

/-- C9 witness: Direct capacity 1, LRU, sequence `[0]`. -/
theorem C9_witness :
    (⟨0, 1, 1, [(0, false)]⟩ : CacheSim.RunResult).log =
      (⟨0, 1, 1, [(0, false)]⟩ : CacheSim.RunResult).log ∧
    (⟨0, 1, 1, [(0, false)]⟩ : CacheSim.RunResult).hits =
      (⟨0, 1, 1, [(0, false)]⟩ : CacheSim.RunResult).hits ∧
    (⟨0, 1, 1, [(0, false)]⟩ : CacheSim.RunResult).misses =
      (⟨0, 1, 1, [(0, false)]⟩ : CacheSim.RunResult).misses :=
  C9_determinism ⟨1, 1, CacheSim.Mapping.direct, CacheSim.Policy.lru⟩ [0]
    ⟨0, 1, 1, [(0, false)]⟩ ⟨0, 1, 1, [(0, false)]⟩ (Or.inl rfl)
    (by decide) (by decide)

/-- C10: in `cache_simulator.py`, a Set-Associative cache always gets exactly
2 sets, each with associativity `cache_size // 2`, for every configuration
(the config carries no associativity parameter). -/
theorem C10_setassoc_geometry (cfg : CacheSim.Config)
    (h : cfg.mapping = CacheSim.Mapping.setAssoc) :
    (CacheSim.Cache.init cfg).sets.length = 2 ∧
    ∀ s ∈ (CacheSim.Cache.init cfg).sets,
      s.associativity = cfg.cache_size / 2 := by
  constructor
  · simp [CacheSim.Cache.init, h]
  · intro s hs
    simp [CacheSim.Cache.init, h, List.mem_replicate] at hs
    rw [hs]

/-- C10 witness: capacity 5 (odd, associativity 5 / 2 = 2). -/
theorem C10_witness :
    (CacheSim.Cache.init
        ⟨5, 1, CacheSim.Mapping.setAssoc, CacheSim.Policy.fifo⟩).sets.length
      = 2 ∧
    ∀ s ∈ (CacheSim.Cache.init
        ⟨5, 1, CacheSim.Mapping.setAssoc, CacheSim.Policy.fifo⟩).sets,
      s.associativity = 5 / 2 :=
  C10_setassoc_geometry ⟨5, 1, CacheSim.Mapping.setAssoc, CacheSim.Policy.fifo⟩
    rfl

/-- C3: under the FIFO policy, the sequence of addresses evicted from every
set is a prefix of the sequence of addresses inserted into that set (evictions
happen in insertion order, oldest first, regardless of intervening hits). -/
theorem C3_fifo_order (cfg : CacheSim.Config) (seq : List Nat)
    (hv : cfg.valid) (hp : cfg.replacement_policy = CacheSim.Policy.fifo) :
    ∃ st, CacheSim.runState cfg seq = some st ∧
      ∀ i, CacheSim.evAt st i =
        (CacheSim.insAt st i).take (CacheSim.evAt st i).length := by
  obtain ⟨st, hrun, hI, hF⟩ := CacheSim.foldl_fifoInv hv hp seq
    (CacheSim.SimState.init cfg) (CacheSim.Inv_init cfg)
    (CacheSim.fifoInv_init cfg)
  refine ⟨st, hrun, fun i => ?_⟩
  rw [hF i]
  exact (List.take_left _ _).symm

/-- C3 witness: fully-associative capacity 2, FIFO, sequence `[1,2,3]` —
one eviction (address 1), matching the first insertion. -/
theorem C3_witness :
    CacheSim.evAt
      ⟨⟨CacheSim.Mapping.fullyAssoc, CacheSim.Policy.fifo, 2, [⟨[2, 3], 2⟩]⟩,
        0, 3, [(1, false), (2, false), (3, false)],
        [(0, 1), (0, 2), (0, 3)], [(0, 1)]⟩ 0 =
    (CacheSim.insAt
      ⟨⟨CacheSim.Mapping.fullyAssoc, CacheSim.Policy.fifo, 2, [⟨[2, 3], 2⟩]⟩,
        0, 3, [(1, false), (2, false), (3, false)],
        [(0, 1), (0, 2), (0, 3)], [(0, 1)]⟩ 0).take
      (CacheSim.evAt
        ⟨⟨CacheSim.Mapping.fullyAssoc, CacheSim.Policy.fifo, 2, [⟨[2, 3], 2⟩]⟩,
          0, 3, [(1, false), (2, false), (3, false)],
          [(0, 1), (0, 2), (0, 3)], [(0, 1)]⟩ 0).length := by
  obtain ⟨st, h1, h2⟩ := C3_fifo_order
    ⟨2, 1, CacheSim.Mapping.fullyAssoc, CacheSim.Policy.fifo⟩ [1, 2, 3]
    (by decide) rfl
  have he : CacheSim.runState
      ⟨2, 1, CacheSim.Mapping.fullyAssoc, CacheSim.Policy.fifo⟩ [1, 2, 3] =
      some ⟨⟨CacheSim.Mapping.fullyAssoc, CacheSim.Policy.fifo, 2,
        [⟨[2, 3], 2⟩]⟩, 0, 3, [(1, false), (2, false), (3, false)],
        [(0, 1), (0, 2), (0, 3)], [(0, 1)]⟩ := by decide
  rw [he] at h1
  cases Option.some.inj h1
  exact h2 0

/-- C8: every per-access step preserves, for every set, that `members` has no
duplicates and length at most the set's associativity; under a valid
configuration the run completes and the final state satisfies it too. -/
theorem C8_members_invariant :
    (∀ (st : CacheSim.SimState) (a : Nat) (st2 : CacheSim.SimState),
      (∀ s ∈ st.cache.sets, CacheSim.SetWF s) → st.step a = some st2 →
      ∀ s ∈ st2.cache.sets, CacheSim.SetWF s) ∧
    (∀ (cfg : CacheSim.Config) (seq : List Nat), cfg.valid →
      ∃ st, CacheSim.runState cfg seq = some st ∧
        ∀ s ∈ st.cache.sets, CacheSim.SetWF s) := by
  constructor
  · exact fun st a st2 hw h => CacheSim.step_setWF hw h
  · intro cfg seq hv
    obtain ⟨st, hrun, hI⟩ := CacheSim.foldl_total_inv hv seq
      (CacheSim.SimState.init cfg) (CacheSim.Inv_init cfg)
    exact ⟨st, hrun, fun s hs => (hI.2.2.2.2 s hs).2⟩

/-- C8 witness: one step on a Direct capacity-1 cache yields the well-formed
set `⟨[0], 1⟩`. -/
theorem C8_witness : CacheSim.SetWF ⟨[0], 1⟩ := by
  have h := C8_members_invariant.1
    (CacheSim.SimState.init ⟨1, 1, CacheSim.Mapping.direct,
      CacheSim.Policy.lru⟩) 0
    ⟨⟨CacheSim.Mapping.direct, CacheSim.Policy.lru, 1, [⟨[0], 1⟩]⟩,
      0, 1, [(0, false)], [(0, 0)], []⟩
    (by decide) (by decide)
  exact h ⟨[0], 1⟩ (by simp)

namespace CacheSim

theorem hit_moves_to_mru {st : SimState} {a i : Nat} {st2 : SimState}
    (hpol : st.cache.replacement_policy = Policy.lru)
    (hhit : hitOn st a i) (h : st.step a = some st2) :
    blocksAt st2 i = (blocksAt st i).erase a ++ [a] := by
  obtain ⟨hmap, hmem⟩ := hhit
  obtain ⟨i2, s, hi, hs, hc⟩ := step_some_cases h
  have hii : i2 = i := by
    rw [hmap] at hi
    exact (Option.some.inj hi).symm
  subst hii
  have hbl : blocksAt st i2 = s.blocks := blocksAt_eq_of_getElem hs
  rw [hbl] at hmem
  rcases hc with ⟨hm, rfl⟩ | ⟨hm, hf, rfl⟩ | ⟨hm, hf, v, rest, hb, rfl⟩
  · rw [blocksAt_hitUpd_self hs a, if_pos hpol, hbl]
    simp [apply_lru_policy, hmem]
  · exact absurd hmem hm
  · exact absurd hmem hm

theorem evict_head {st : SimState} {a : Nat} {st2 : SimState} {i v : Nat}
    (h : st.step a = some st2)
    (hlog : st2.ev_log = st.ev_log ++ [(i, v)]) :
    (blocksAt st i).head? = some v := by
  obtain ⟨i2, s, hi, hs, hc⟩ := step_some_cases h
  rcases hc with ⟨hm, rfl⟩ | ⟨hm, hf, rfl⟩ | ⟨hm, hf, v2, rest, hb, rfl⟩
  · simp [SimState.hitUpd] at hlog
  · simp [SimState.missUpd] at hlog
  · simp [SimState.missUpd] at hlog
    obtain ⟨hii, hvv⟩ := hlog
    subst hii
    subst hvv
    rw [blocksAt_eq_of_getElem hs, hb]
    rfl

theorem notHead_preserved {st : SimState} {a i x : Nat} {st2 : SimState}
    (h : st.step a = some st2) (hnh : ¬hitOn st a i) (hne : ¬evictOn st a i)
    (hx : x ∈ blocksAt st i) (hhd : (blocksAt st i).head? ≠ some x) :
    x ∈ blocksAt st2 i ∧ (blocksAt st2 i).head? ≠ some x := by
  obtain ⟨i2, s, hi, hs, hc⟩ := step_some_cases h
  by_cases hii : i2 = i
  · subst hii
    have hbl : blocksAt st i2 = s.blocks := blocksAt_eq_of_getElem hs
    rcases hc with ⟨hm, rfl⟩ | ⟨hm, hf, rfl⟩ | ⟨hm, hf, v, rest, hb, rfl⟩
    · exact absurd ⟨hi, hbl ▸ hm⟩ hnh
    · rw [blocksAt_missUpd_self hs a (s.add_block a) none]
      rw [hbl] at hx hhd
      constructor
      · simp [CacheSet.add_block]
        exact Or.inl hx
      · cases hcase : s.blocks with
        | nil => rw [hcase] at hx; cases hx
        | cons y ys =>
            rw [hcase] at hhd
            simpa [CacheSet.add_block, hcase] using hhd
    · refine absurd ⟨hi, ?_, ?_⟩ hne
      · rw [hbl]
        exact hm
      · have hset : setAt st i2 = s := by simp [setAt, hs]
        rw [hset]
        exact hf
  · rcases hc with ⟨hm, rfl⟩ | ⟨hm, hf, rfl⟩ | ⟨hm, hf, v, rest, hb, rfl⟩
    · rw [blocksAt_hitUpd_other hii s a]
      exact ⟨hx, hhd⟩
    · rw [blocksAt_missUpd_other hii a (s.add_block a) none]
      exact ⟨hx, hhd⟩
    · rw [blocksAt_missUpd_other hii a ⟨rest ++ [a], s.associativity⟩
        (some v)]
      exact ⟨hx, hhd⟩

theorem mid_preserved {i x : Nat} :
    ∀ (mid : List Nat) (st st2 : SimState),
      noHitNoEvict i st mid → mid.foldlM SimState.step st = some st2 →
      x ∈ blocksAt st i → (blocksAt st i).head? ≠ some x →
      x ∈ blocksAt st2 i ∧ (blocksAt st2 i).head? ≠ some x := by
  intro mid
  induction mid with
  | nil =>
      intro st st2 hN hfold hx hhd
      have heq : st = st2 := by simpa [List.foldlM] using hfold
      subst heq
      exact ⟨hx, hhd⟩
  | cons a rest ih =>
      intro st st2 hN hfold hx hhd
      simp only [noHitNoEvict] at hN
      obtain ⟨hnh, hne, hcont⟩ := hN
      rw [List.foldlM_cons] at hfold
      cases hstep : st.step a with
      | none => rw [hstep] at hfold; simp at hfold
      | some st1 =>
          rw [hstep] at hfold
          simp only [bind, Option.some_bind] at hfold
          rw [hstep] at hcont
          obtain ⟨hx1, hhd1⟩ := notHead_preserved hstep hnh hne hx hhd
          exact ih st1 st2 hcont hfold hx1 hhd1

end CacheSim

/-- C2 counterexample: Direct capacity 4, LRU, sequence `[1,1,5]` — the second
access is a HIT on address 1 in set 1, no other HIT follows, yet the next
eviction from set 1 (caused by address 5) selects address 1: with a
one-member set, the address just hit IS the oldest member.  The claim as
stated ("the next eviction does not select x") is therefore false. -/
theorem C2_counterexample :
    (CacheSim.runState CacheSim.get_input_data_config [1, 1, 5]).map
      (fun st => (st.access_log, st.ev_log)) =
      some ([(1, false), (1, true), (5, false)], [(1, 1)]) := by
  decide

/-- C2 (amended): under LRU, (1) a HIT on `x` moves `x` to the most-recent end
of the set's order, (2) every eviction removes the element at the oldest end
(the head), and (3) after a HIT on `x` in a set holding at least two members,
the next eviction from that set (if no other HIT touches the set and no other
eviction drains it first) does not select `x`. -/
theorem C2_lru_amended :
    (∀ (st : CacheSim.SimState) (a i : Nat) (st2 : CacheSim.SimState),
      st.cache.replacement_policy = CacheSim.Policy.lru →
      CacheSim.hitOn st a i → st.step a = some st2 →
      CacheSim.blocksAt st2 i = (CacheSim.blocksAt st i).erase a ++ [a]) ∧
    (∀ (st : CacheSim.SimState) (a : Nat) (st2 : CacheSim.SimState)
        (i v : Nat),
      st.step a = some st2 → st2.ev_log = st.ev_log ++ [(i, v)] →
      (CacheSim.blocksAt st i).head? = some v) ∧
    (∀ (cfg : CacheSim.Config) (st0 st1 st2 st3 : CacheSim.SimState)
        (x i : Nat) (mid : List Nat) (b v : Nat),
      CacheSim.Inv cfg st0 → cfg.replacement_policy = CacheSim.Policy.lru →
      CacheSim.hitOn st0 x i → 2 ≤ (CacheSim.blocksAt st0 i).length →
      st0.step x = some st1 → CacheSim.noHitNoEvict i st1 mid →
      mid.foldlM CacheSim.SimState.step st1 = some st2 →
      st2.step b = some st3 → st3.ev_log = st2.ev_log ++ [(i, v)] →
      v ≠ x) := by
  refine ⟨?_, ?_, ?_⟩
  · exact fun st a i st2 hpol hhit h => CacheSim.hit_moves_to_mru hpol hhit h
  · exact fun st a st2 i v h hlog => CacheSim.evict_head h hlog
  · intro cfg st0 st1 st2 st3 x i mid b v hI hpol hhit hlen hstep0 hN hfold
      hstepb hlog
    have hpol0 : st0.cache.replacement_policy = CacheSim.Policy.lru :=
      hI.2.1.trans hpol
    obtain ⟨hmap, hmem⟩ := hhit
    cases hsg : st0.cache.sets[i]? with
    | none =>
        exfalso
        have : CacheSim.blocksAt st0 i = [] := by
          simp [CacheSim.blocksAt, CacheSim.setAt, hsg]
        rw [this] at hmem
        cases hmem
    | some s =>
        have hnd : (CacheSim.blocksAt st0 i).Nodup := by
          rw [CacheSim.blocksAt_eq_of_getElem hsg]
          exact (hI.2.2.2.2 s (List.getElem?_mem hsg)).2.1
        have h1 : CacheSim.blocksAt st1 i =
            (CacheSim.blocksAt st0 i).erase x ++ [x] :=
          CacheSim.hit_moves_to_mru hpol0 ⟨hmap, hmem⟩ hstep0
        have hx1 : x ∈ CacheSim.blocksAt st1 i := by
          rw [h1]; simp
        have hhd1 : (CacheSim.blocksAt st1 i).head? ≠ some x := by
          rw [h1]
          have hel : ((CacheSim.blocksAt st0 i).erase x).length =
              (CacheSim.blocksAt st0 i).length - 1 :=
            List.length_erase_of_mem hmem
          have hxe : x ∉ (CacheSim.blocksAt st0 i).erase x :=
            hnd.not_mem_erase
          cases hE : (CacheSim.blocksAt st0 i).erase x with
          | nil =>
              exfalso
              rw [hE] at hel
              simp at hel
              omega
          | cons y ys =>
              simp only [List.cons_append, List.head?_cons, ne_eq,
                Option.some.injEq]
              intro heq
              rw [hE] at hxe
              rw [heq] at hxe
              exact hxe (List.mem_cons_self x ys)
        obtain ⟨hx2, hhd2⟩ :=
          CacheSim.mid_preserved mid st1 st2 hN hfold hx1 hhd1
        have hhead := CacheSim.evict_head hstepb hlog
        intro hvx
        rw [hvx] at hhead
        exact hhd2 hhead

/-- C2 witness: fully-associative capacity 2 under LRU.  After misses on 1 and
2 the set is `[1,2]`; a HIT on 1 rotates it to `[2,1]`; the next eviction
(access 3, `mid = []`) removes the head 2, not the just-hit 1. -/
theorem C2_witness :
    CacheSim.blocksAt
      ⟨⟨CacheSim.Mapping.fullyAssoc, CacheSim.Policy.lru, 2, [⟨[2, 1], 2⟩]⟩,
        1, 2, [(1, false), (2, false), (1, true)], [(0, 1), (0, 2)], []⟩ 0 =
      (CacheSim.blocksAt
        ⟨⟨CacheSim.Mapping.fullyAssoc, CacheSim.Policy.lru, 2, [⟨[1, 2], 2⟩]⟩,
          0, 2, [(1, false), (2, false)], [(0, 1), (0, 2)], []⟩ 0).erase 1
        ++ [1] ∧
    (CacheSim.blocksAt
      ⟨⟨CacheSim.Mapping.fullyAssoc, CacheSim.Policy.lru, 2, [⟨[2, 1], 2⟩]⟩,
        1, 2, [(1, false), (2, false), (1, true)], [(0, 1), (0, 2)], []⟩
        0).head? = some 2 ∧
    (2 : Nat) ≠ 1 := by
  refine ⟨?_, ?_, ?_⟩
  · exact C2_lru_amended.1
      ⟨⟨CacheSim.Mapping.fullyAssoc, CacheSim.Policy.lru, 2, [⟨[1, 2], 2⟩]⟩,
        0, 2, [(1, false), (2, false)], [(0, 1), (0, 2)], []⟩ 1 0
      ⟨⟨CacheSim.Mapping.fullyAssoc, CacheSim.Policy.lru, 2, [⟨[2, 1], 2⟩]⟩,
        1, 2, [(1, false), (2, false), (1, true)], [(0, 1), (0, 2)], []⟩
      rfl (by decide) (by decide)
  · exact C2_lru_amended.2.1
      ⟨⟨CacheSim.Mapping.fullyAssoc, CacheSim.Policy.lru, 2, [⟨[2, 1], 2⟩]⟩,
        1, 2, [(1, false), (2, false), (1, true)], [(0, 1), (0, 2)], []⟩ 3
      ⟨⟨CacheSim.Mapping.fullyAssoc, CacheSim.Policy.lru, 2, [⟨[1, 3], 2⟩]⟩,
        1, 3, [(1, false), (2, false), (1, true), (3, false)],
        [(0, 1), (0, 2), (0, 3)], [(0, 2)]⟩ 0 2
      (by decide) (by decide)
  · exact C2_lru_amended.2.2
      ⟨2, 1, CacheSim.Mapping.fullyAssoc, CacheSim.Policy.lru⟩
      ⟨⟨CacheSim.Mapping.fullyAssoc, CacheSim.Policy.lru, 2, [⟨[1, 2], 2⟩]⟩,
        0, 2, [(1, false), (2, false)], [(0, 1), (0, 2)], []⟩
      ⟨⟨CacheSim.Mapping.fullyAssoc, CacheSim.Policy.lru, 2, [⟨[2, 1], 2⟩]⟩,
        1, 2, [(1, false), (2, false), (1, true)], [(0, 1), (0, 2)], []⟩
      ⟨⟨CacheSim.Mapping.fullyAssoc, CacheSim.Policy.lru, 2, [⟨[2, 1], 2⟩]⟩,
        1, 2, [(1, false), (2, false), (1, true)], [(0, 1), (0, 2)], []⟩
      ⟨⟨CacheSim.Mapping.fullyAssoc, CacheSim.Policy.lru, 2, [⟨[1, 3], 2⟩]⟩,
        1, 3, [(1, false), (2, false), (1, true), (3, false)],
        [(0, 1), (0, 2), (0, 3)], [(0, 2)]⟩
      1 0 [] 3 2
      (by decide) rfl (by decide) (by decide) (by decide) trivial rfl
      (by decide) (by decide)
